import Mathlib

/-!
Verification of the n8n-node-extractor extraction pipeline.

Shallow embedding of the string-processing and orchestration logic of the
repository: name normalization (generateNodeName), icon normalization
(processNodeIcons and the icon-relevant tail of extractCompleteNode),
POSIX path helpers used by generateIconUrl, module-path candidate
selection (findNodes path variations), partial-failure aggregation, the
saved-result JSON artifact, the module-load timeout mechanism, and the
multi-package fan-out.
-/

namespace NodeExtractor

/-- JS String.replace with a plain string pattern: replace the first
occurrence of `pat` (an empty pattern matches at the start). -/
def replaceFirstL (pat rep : List Char) : List Char → List Char
  | [] => if pat.isEmpty then rep else []
  | c :: cs =>
    if pat.isPrefixOf (c :: cs) then rep ++ (c :: cs).drop pat.length
    else c :: replaceFirstL pat rep cs

/-- JS `s.replace(pat, rep)` for string (non-regex) patterns. -/
def jsReplaceFirst (pat rep s : String) : String :=
  ⟨replaceFirstL pat.data rep.data s.data⟩

/-- JS `p.isPrefixOf`-style `s.startsWith(p)`. -/
def hasLeading (p s : String) : Bool :=
  p.data.isPrefixOf s.data

/-- JS `s.includes("/")`. -/
def containsSlash (s : String) : Bool :=
  s.data.contains '/'

/-- The regex replace `.replace(/^@[^\/]+\//, '')`: strip a leading
npm scope segment `@scope/` when present. -/
def stripScopeL (s : List Char) : List Char :=
  match s with
  | '@' :: c :: rest =>
    if c = '/' then s
    else
      match (c :: rest).dropWhile (fun x => x ≠ '/') with
      | _ :: tail => tail
      | [] => s
  | _ => s

/-- Strip a fixed leading string when present (models the anchored
regex replaces of the source, which remove a fixed leading segment). -/
def dropLeadingL (p s : List Char) : List Char :=
  if p.isPrefixOf s then s.drop p.length else s

/-- The `cleanPackageName` computed inside generateNodeName
(src/src/extractors/node-extractor.ts line 231, src/unnamed/part_002
line 397): strip the scope, then strip a leading `n8n-nodes-`. -/
def cleanNodePackageName (packageName : String) : String :=
  ⟨dropLeadingL "n8n-nodes-".data (stripScopeL packageName.data)⟩

/-- BaseExtractor.generateNodeName / NodeExtractor.generateNodeName:
`n8n-nodes-<cleanPackageName>.<originalName>`. -/
def generateNodeName (originalName packageName : String) : String :=
  "n8n-nodes-" ++ cleanNodePackageName packageName ++ "." ++ originalName

theorem data_append (s t : String) : (s ++ t).data = s.data ++ t.data := by
  cases s; cases t; rfl

theorem append_cancel_left_chars :
    ∀ (p a b : List Char), p ++ a = p ++ b → a = b := by
  intro p
  induction p with
  | nil => intro a b h; simpa using h
  | cons c cs ih => intro a b h; exact ih a b (by simpa using h)

end NodeExtractor

open NodeExtractor

/-- C1 counterexample: the pairs ("foo", "X") and ("n8n-nodes-foo", "X")
are distinct (the package names differ) yet generateNodeName maps both to
the same normalized name, because stripping the conventional
`n8n-nodes-` leading segment conflates the two package names. -/
theorem generateNodeName_collision_across_packages :
    generateNodeName "X" "foo" = generateNodeName "X" "n8n-nodes-foo"
      ∧ ("foo" : String) ≠ "n8n-nodes-foo" := by
  constructor
  · rfl
  · decide

/-- C1 (amended): generateNodeName is deterministic (it is a pure
function of its two arguments) and always produces a non-empty name, and
for a fixed packageName it is injective in originalName; global
injectivity over distinct (packageName, originalName) pairs does not
hold (see the counterexample). -/
theorem generateNodeName_inj_fixed_package (pkg o1 o2 : String)
    (h : generateNodeName o1 pkg = generateNodeName o2 pkg) :
    o1 = o2 ∧ generateNodeName o1 pkg ≠ "" := by
  constructor
  · have hd := congrArg String.data h
    simp only [generateNodeName, data_append, List.append_assoc] at hd
    have h1 := append_cancel_left_chars _ _ _ hd
    have h2 := append_cancel_left_chars _ _ _ h1
    have h3 := append_cancel_left_chars _ _ _ h2
    have h4 : o1.data = o2.data := by simpa using h3
    cases o1; cases o2
    exact congrArg String.mk h4
  · intro hcontra
    have hd := congrArg String.data hcontra
    simp [generateNodeName, data_append] at hd

/-- Witness for the amended C1 theorem at a concrete input. -/
theorem generateNodeName_inj_fixed_package_witness :
    ("Slack" : String) = "Slack"
      ∧ generateNodeName "Slack" "n8n-nodes-tavily" ≠ "" :=
  generateNodeName_inj_fixed_package "n8n-nodes-tavily" "Slack" "Slack" rfl

namespace NodeExtractor

/-- JS `s.split('/')` on the character list. -/
def splitSlashAux : List Char → List Char → List String
  | [], acc => [⟨acc.reverse⟩]
  | '/' :: rest, acc => ⟨acc.reverse⟩ :: splitSlashAux rest []
  | c :: rest, acc => splitSlashAux rest (c :: acc)

/-- JS `s.split('/')`. -/
def splitSlash (s : String) : List String :=
  splitSlashAux s.data []

/-- JS `segments.join('/')`. -/
def joinSlash : List String → String
  | [] => ""
  | [s] => s
  | s :: rest => s ++ "/" ++ joinSlash rest

/-- The segment-normalization pass of the Node posix path resolver:
empty and `.` segments are dropped, `..` pops the previous segment (or
is dropped at the root of an absolute path). -/
def normalizeSegments : List String → List String → List String
  | [], acc => acc.reverse
  | seg :: rest, acc =>
    if seg = "" ∨ seg = "." then normalizeSegments rest acc
    else if seg = ".." then
      match acc with
      | [] => normalizeSegments rest []
      | _ :: acc2 => normalizeSegments rest acc2
    else normalizeSegments rest (seg :: acc)

/-- Drop the common leading segments of two segment lists (used by the
Node posix `path.relative`). -/
def dropCommon : List String → List String → List String × List String
  | a :: as, b :: bs => if a = b then dropCommon as bs else (a :: as, b :: bs)
  | as, bs => (as, bs)

/-- Node `path.resolve(base, p)` on posix paths. The process working
directory is abstracted as the filesystem root; every call site of the
source passes an absolute base path. -/
def posixResolve (base p : String) : String :=
  let joined :=
    if hasLeading "/" p then p
    else if hasLeading "/" base then base ++ "/" ++ p
    else "/" ++ base ++ "/" ++ p
  "/" ++ joinSlash (normalizeSegments (splitSlash joined) [])

/-- Node `path.relative(fromPath, toPath)` on posix paths, with the
working directory abstracted as the root as in posixResolve. -/
def posixRelative (fromPath toPath : String) : String :=
  let fAbs := if hasLeading "/" fromPath then fromPath else "/" ++ fromPath
  let tAbs := if hasLeading "/" toPath then toPath else "/" ++ toPath
  let fs := normalizeSegments (splitSlash fAbs) []
  let ts := normalizeSegments (splitSlash tAbs) []
  let p := dropCommon fs ts
  joinSlash (List.replicate p.1.length ".." ++ p.2)

/-- Node `path.dirname` on posix paths: skip trailing slashes, then the
final segment; the remainder (or `/` resp. `.`) is the directory. -/
def posixDirname (s : String) : String :=
  match s.data with
  | [] => "."
  | c0 :: rest =>
    let hasRoot := c0 == '/'
    let r1 := rest.reverse.dropWhile (fun c => c == '/')
    let r2 := r1.dropWhile (fun c => c != '/')
    if r2.length == 0 then (if hasRoot then "/" else ".")
    else if hasRoot && (r2.length == 1) then "//"
    else ⟨c0 :: rest.take (r2.length - 1)⟩

/-- The `.replace(/\\/g, '/')` applied to the `path.relative` result in
generateIconUrl: turn every backslash into a slash. -/
def slashify (s : String) : String :=
  ⟨s.data.map (fun c => if c = '\\' then '/' else c)⟩

/-- BaseExtractor.generateIconUrl (src/unnamed/part_002 lines 404 to
435): strip the scope from the package name, strip a leading `file:`
from the icon path, then resolve: a leading slash is stripped (already
package-relative); a bare filename or an explicitly relative path is
resolved against the directory of the node module and made relative to
the package root; anything else passes through; finally the URL is
`icons/<cleanPackageName>/<resolvedPath>`. -/
def generateIconUrl (iconPath packageName nodePath packagePath : String) : String :=
  let cleanPackageName : String := ⟨stripScopeL packageName.data⟩
  let nodeDir := posixDirname nodePath
  let normalizedIconPath :=
    if hasLeading "file:" iconPath then (⟨iconPath.data.drop 5⟩ : String) else iconPath
  let resolvedPath :=
    if hasLeading "/" normalizedIconPath then (⟨normalizedIconPath.data.drop 1⟩ : String)
    else if !containsSlash normalizedIconPath
        || hasLeading "./" normalizedIconPath
        || hasLeading "../" normalizedIconPath then
      slashify (posixRelative packagePath (posixResolve nodeDir normalizedIconPath))
    else normalizedIconPath
  "icons/" ++ cleanPackageName ++ "/" ++ resolvedPath

/-- The `icon` field of a raw node description: absent, a string, or the
object form with optional light and dark references. -/
inductive RawIcon where
  | none
  | str (s : String)
  | obj (light dark : Option String)
deriving DecidableEq

/-- The fields of a raw description that the icon normalization reads.
The `name` guard of extractCompleteNode happens before this logic and is
not icon-relevant. -/
structure RawDescription where
  name : String
  icon : RawIcon := RawIcon.none
  iconUrl : Option String := Option.none
deriving DecidableEq

/-- JS truthiness of an optional string field: absent and the empty
string are falsy. -/
def truthy : Option String → Bool
  | Option.none => false
  | Option.some s => s != ""

/-- The ternary `x.startsWith('file:') ? x.replace('file:', '') : x`
used for the single, light and dark icon references. -/
def stripFileRef (s : String) : String :=
  if hasLeading "file:" s then jsReplaceFirst "file:" "" s else s

/-- The record assembled by BaseExtractor.processNodeIcons. -/
structure IconInfo where
  icon : Option String := Option.none
  iconUrl : Option String := Option.none
  iconLightUrl : Option String := Option.none
  iconDarkUrl : Option String := Option.none
deriving DecidableEq

/-- BaseExtractor.processNodeIcons (src/unnamed/part_002 lines 328 to
391): a string icon is kept verbatim when it is a `fa:` reference and
rendered to a URL otherwise; an object icon resolves light and dark
independently, with dark preferred for iconUrl and light the fallback; a
truthy top-level iconUrl on the raw description then overwrites iconUrl. -/
def processNodeIcons (description : RawDescription)
    (packageName filePath packagePath : String) : IconInfo :=
  let result0 : IconInfo := {}
  let result1 :=
    match description.icon with
    | RawIcon.none => result0
    | RawIcon.str s =>
      if s != "" then
        if hasLeading "fa:" s then { result0 with icon := Option.some s }
        else
          { result0 with
            iconUrl := Option.some
              (generateIconUrl (stripFileRef s) packageName filePath packagePath) }
      else result0
    | RawIcon.obj light dark =>
      if truthy light || truthy dark then
        let r1 :=
          match light with
          | Option.some l =>
            if l != "" then
              { result0 with
                iconLightUrl := Option.some
                  (generateIconUrl (stripFileRef l) packageName filePath packagePath) }
            else result0
          | Option.none => result0
        match dark with
        | Option.some d =>
          if d != "" then
            let du := generateIconUrl (stripFileRef d) packageName filePath packagePath
            { r1 with iconDarkUrl := Option.some du, iconUrl := Option.some du }
          else if truthy r1.iconLightUrl then { r1 with iconUrl := r1.iconLightUrl }
          else r1
        | Option.none =>
          if truthy r1.iconLightUrl then { r1 with iconUrl := r1.iconLightUrl }
          else r1
      else result0
  if truthy description.iconUrl then
    { result1 with
      iconUrl := Option.some
        (generateIconUrl (description.iconUrl.getD "") packageName filePath packagePath) }
  else result1

/-- The icon-carrying fields of the CompleteNodeDescription returned by
BaseExtractor.extractCompleteNode: the object spread copies the raw icon
and iconUrl fields unchanged, and they are then adjusted. -/
structure FinalIcons where
  icon : RawIcon
  iconUrl : Option String
deriving DecidableEq

/-- The icon-relevant tail of BaseExtractor.extractCompleteNode
(src/unnamed/part_002 lines 502 to 542): start from the spread of the
raw description, overwrite icon with the symbolic icon when truthy
(deleting iconUrl for a `fa:` icon), then overwrite iconUrl in turn with
the processed iconUrl, the light URL and the dark URL when truthy. -/
def extractIconFields (description : RawDescription)
    (packageName filePath packagePath : String) : FinalIcons :=
  let iconInfo := processNodeIcons description packageName filePath packagePath
  let cd0 : FinalIcons := { icon := description.icon, iconUrl := description.iconUrl }
  let cd1 :=
    match iconInfo.icon with
    | Option.some i =>
      if i != "" then
        let cdA : FinalIcons := { cd0 with icon := RawIcon.str i }
        if hasLeading "fa:" i then { cdA with iconUrl := Option.none } else cdA
      else cd0
    | Option.none => cd0
  let cd2 := if truthy iconInfo.iconUrl then { cd1 with iconUrl := iconInfo.iconUrl } else cd1
  let cd3 :=
    if truthy iconInfo.iconLightUrl then { cd2 with iconUrl := iconInfo.iconLightUrl } else cd2
  if truthy iconInfo.iconDarkUrl then { cd3 with iconUrl := iconInfo.iconDarkUrl } else cd3

theorem generateIconUrl_ne_empty (a b c d : String) :
    generateIconUrl a b c d ≠ "" := by
  intro h
  have hd := congrArg String.data h
  simp [generateIconUrl, data_append] at hd

theorem truthy_none_eq : truthy Option.none = false := rfl

theorem truthy_some_eq (s : String) : truthy (Option.some s) = (s != "") := rfl

theorem truthy_some_of_ne {s : String} (h : s ≠ "") :
    truthy (Option.some s) = true := by
  simp [truthy, h]

/-- A truthy raw iconUrl always overwrites the iconUrl computed from the
icon field at the end of processNodeIcons, whatever the icon field was. -/
theorem processNodeIcons_explicit (d : RawDescription) (pn f pp u : String)
    (hu : d.iconUrl = Option.some u) (hne : u ≠ "") :
    (processNodeIcons d pn f pp).iconUrl
      = Option.some (generateIconUrl u pn f pp) := by
  simp only [processNodeIcons, hu, truthy_some_of_ne hne, if_true, Option.getD_some]

/-- When the icon field is not an object icon with a truthy light or
dark reference, processNodeIcons leaves both URL-variant fields unset. -/
theorem processNodeIcons_no_lightdark (d : RawDescription) (pn f pp : String)
    (hobj : ∀ l dk, d.icon = RawIcon.obj l dk → truthy l = false ∧ truthy dk = false) :
    (processNodeIcons d pn f pp).iconLightUrl = Option.none
      ∧ (processNodeIcons d pn f pp).iconDarkUrl = Option.none := by
  cases hicon : d.icon with
  | none =>
    by_cases htr : truthy d.iconUrl <;> simp [processNodeIcons, hicon, htr]
  | str s =>
    by_cases htr : truthy d.iconUrl <;>
      by_cases hs : s = "" <;>
        by_cases hfa : hasLeading "fa:" s <;>
          simp [processNodeIcons, hicon, htr, hs, hfa]
  | obj l dk =>
    have hl := (hobj l dk hicon).1
    have hdk := (hobj l dk hicon).2
    by_cases htr : truthy d.iconUrl <;> simp [processNodeIcons, hicon, htr, hl, hdk]

/-- When the icon object carries a truthy dark reference, the dark URL
field of processNodeIcons is the resolved dark URL. -/
theorem processNodeIcons_obj_dark (d : RawDescription) (pn f pp : String)
    (l : Option String) (ds : String)
    (hicon : d.icon = RawIcon.obj l (Option.some ds)) (hds : ds ≠ "") :
    (processNodeIcons d pn f pp).iconDarkUrl
      = Option.some (generateIconUrl (stripFileRef ds) pn f pp) := by
  by_cases htr : truthy d.iconUrl <;>
    cases l with
    | none =>
      simp [processNodeIcons, hicon, htr, truthy_none_eq, truthy_some_eq,
        bne_iff_ne, hds, generateIconUrl_ne_empty]
    | some ls =>
      by_cases hls : ls = "" <;>
        simp [processNodeIcons, hicon, htr, truthy_none_eq, truthy_some_eq,
          bne_iff_ne, hds, hls, generateIconUrl_ne_empty]

/-- When the icon object carries a truthy light reference and a falsy
dark reference, processNodeIcons resolves only the light URL. -/
theorem processNodeIcons_obj_light (d : RawDescription) (pn f pp : String)
    (dk : Option String) (ls : String)
    (hicon : d.icon = RawIcon.obj (Option.some ls) dk) (hls : ls ≠ "")
    (hdk : truthy dk = false) :
    (processNodeIcons d pn f pp).iconDarkUrl = Option.none
      ∧ (processNodeIcons d pn f pp).iconLightUrl
          = Option.some (generateIconUrl (stripFileRef ls) pn f pp) := by
  by_cases htr : truthy d.iconUrl <;>
    cases dk with
    | none =>
      simp [processNodeIcons, hicon, htr, truthy_none_eq, truthy_some_eq,
        bne_iff_ne, hls, generateIconUrl_ne_empty]
    | some ds =>
      have hds : ds = "" := by
        by_contra hne
        simp [truthy, hne] at hdk
      simp [processNodeIcons, hicon, htr, truthy_none_eq, truthy_some_eq,
        bne_iff_ne, hls, hds, generateIconUrl_ne_empty]

/-- A set dark URL always becomes the final iconUrl (the last overwrite
in extractCompleteNode). -/
theorem extract_final_of_darkUrl (d : RawDescription) (pn f pp : String) (x : String)
    (hx : (processNodeIcons d pn f pp).iconDarkUrl = Option.some x) (hne : x ≠ "") :
    (extractIconFields d pn f pp).iconUrl = Option.some x := by
  simp only [extractIconFields, hx, truthy_some_of_ne hne, if_true]

/-- With no dark URL, a set light URL becomes the final iconUrl. -/
theorem extract_final_of_lightUrl (d : RawDescription) (pn f pp : String) (x : String)
    (hdk : (processNodeIcons d pn f pp).iconDarkUrl = Option.none)
    (hx : (processNodeIcons d pn f pp).iconLightUrl = Option.some x) (hne : x ≠ "") :
    (extractIconFields d pn f pp).iconUrl = Option.some x := by
  simp only [extractIconFields, hdk, hx, truthy_some_of_ne hne, if_true]
  simp [truthy]

/-- With neither URL variant set, the final iconUrl is the processed
iconUrl when that is truthy. -/
theorem extract_final_of_iconUrl (d : RawDescription) (pn f pp : String) (x : String)
    (hdk : (processNodeIcons d pn f pp).iconDarkUrl = Option.none)
    (hl : (processNodeIcons d pn f pp).iconLightUrl = Option.none)
    (hx : (processNodeIcons d pn f pp).iconUrl = Option.some x) (hne : x ≠ "") :
    (extractIconFields d pn f pp).iconUrl = Option.some x := by
  simp only [extractIconFields, hdk, hl, hx, truthy_some_of_ne hne, if_true]
  simp [truthy]

end NodeExtractor

/-- C2: the claim that the final record returned by extractCompleteNode
never has both a symbolic icon and an iconUrl variant fails on a raw
description carrying both a `fa:` icon and an explicit iconUrl — the
deletion of iconUrl for a Font Awesome icon is undone by the later
iconUrl assignment, contradicting the source comment that any iconUrl is
to be removed in that case. -/
theorem icon_and_iconUrl_both_set_on_fa_with_explicit :
    (extractIconFields
        { name := "n", icon := RawIcon.str "fa:star", iconUrl := Option.some "logo.svg" }
        "n8n-nodes-foo" "/tmp/pkg/dist/Node.node.js" "/tmp/pkg").icon
      = RawIcon.str "fa:star"
    ∧ (extractIconFields
        { name := "n", icon := RawIcon.str "fa:star", iconUrl := Option.some "logo.svg" }
        "n8n-nodes-foo" "/tmp/pkg/dist/Node.node.js" "/tmp/pkg").iconUrl
      = Option.some "icons/n8n-nodes-foo/dist/logo.svg" := by
  constructor <;> rfl

/-- C3 counterexample: with an object icon carrying light and dark
references and an explicit iconUrl, the final iconUrl is the dark URL,
not the URL derived from the explicit value, so the explicit override
does not take precedence in the final record. -/
theorem explicit_iconUrl_overridden_by_dark :
    (extractIconFields
        { name := "n",
          icon := RawIcon.obj (Option.some "light.svg") (Option.some "dark.svg"),
          iconUrl := Option.some "explicit.png" }
        "n8n-nodes-foo" "/tmp/pkg/dist/Node.node.js" "/tmp/pkg").iconUrl
      = Option.some "icons/n8n-nodes-foo/dist/dark.svg"
    ∧ generateIconUrl "explicit.png" "n8n-nodes-foo" "/tmp/pkg/dist/Node.node.js" "/tmp/pkg"
      = "icons/n8n-nodes-foo/dist/explicit.png"
    ∧ ("icons/n8n-nodes-foo/dist/dark.svg" : String)
      ≠ "icons/n8n-nodes-foo/dist/explicit.png" := by
  refine ⟨rfl, rfl, ?_⟩
  decide

/-- C3 (amended): a truthy explicit top-level iconUrl determines the
final iconUrl — derived through generateIconUrl — whenever the icon
field is not an object icon with a truthy light or dark reference; in
the light or dark object case the resolved light or dark URL overwrites
the explicit value in the final record (see the counterexample). -/
theorem explicit_iconUrl_precedence_no_lightdark (d : RawDescription)
    (pn f pp u : String)
    (hu : d.iconUrl = Option.some u) (hne : u ≠ "")
    (hobj : ∀ l dk, d.icon = RawIcon.obj l dk → truthy l = false ∧ truthy dk = false) :
    (extractIconFields d pn f pp).iconUrl
      = Option.some (generateIconUrl u pn f pp) := by
  have hnl := processNodeIcons_no_lightdark d pn f pp hobj
  exact extract_final_of_iconUrl d pn f pp _ hnl.2 hnl.1
    (processNodeIcons_explicit d pn f pp u hu hne)
    (generateIconUrl_ne_empty u pn f pp)

/-- Witness for the amended C3 theorem at a concrete input. -/
theorem explicit_iconUrl_precedence_no_lightdark_witness :
    (extractIconFields
        { name := "n", icon := RawIcon.str "file:x.svg", iconUrl := Option.some "e.png" }
        "n8n-nodes-foo" "/tmp/pkg/dist/Node.node.js" "/tmp/pkg").iconUrl
      = Option.some
          (generateIconUrl "e.png" "n8n-nodes-foo" "/tmp/pkg/dist/Node.node.js" "/tmp/pkg") :=
  explicit_iconUrl_precedence_no_lightdark
    { name := "n", icon := RawIcon.str "file:x.svg", iconUrl := Option.some "e.png" }
    "n8n-nodes-foo" "/tmp/pkg/dist/Node.node.js" "/tmp/pkg" "e.png" rfl (by decide)
    (fun l dk h => RawIcon.noConfusion h)

/-- C4: for an object icon, a truthy dark reference always determines
the final iconUrl (even when a light reference is present, and even when
an explicit iconUrl is present), and with a falsy dark reference a
truthy light reference determines it. -/
theorem dark_icon_wins_light_fallback (d : RawDescription) (pn f pp : String)
    (l dk : Option String) (hicon : d.icon = RawIcon.obj l dk) :
    (∀ ds, dk = Option.some ds → ds ≠ "" →
      (extractIconFields d pn f pp).iconUrl
        = Option.some (generateIconUrl (stripFileRef ds) pn f pp))
    ∧ (truthy dk = false → ∀ ls, l = Option.some ls → ls ≠ "" →
      (extractIconFields d pn f pp).iconUrl
        = Option.some (generateIconUrl (stripFileRef ls) pn f pp)) := by
  constructor
  · intro ds hds hne
    subst hds
    exact extract_final_of_darkUrl d pn f pp _
      (processNodeIcons_obj_dark d pn f pp l ds hicon hne)
      (generateIconUrl_ne_empty _ pn f pp)
  · intro hdk ls hls hne
    subst hls
    have h := processNodeIcons_obj_light d pn f pp dk ls hicon hne hdk
    exact extract_final_of_lightUrl d pn f pp _ h.1 h.2
      (generateIconUrl_ne_empty _ pn f pp)

/-- Witness for the C4 theorem at a concrete input: both light and dark
present, the dark URL wins. -/
theorem dark_icon_wins_light_fallback_witness :
    (extractIconFields
        { name := "n",
          icon := RawIcon.obj (Option.some "light.svg") (Option.some "dark.svg"),
          iconUrl := Option.none }
        "n8n-nodes-foo" "/tmp/pkg/dist/Node.node.js" "/tmp/pkg").iconUrl
      = Option.some
          (generateIconUrl (stripFileRef "dark.svg") "n8n-nodes-foo"
            "/tmp/pkg/dist/Node.node.js" "/tmp/pkg") :=
  (dark_icon_wins_light_fallback
      { name := "n",
        icon := RawIcon.obj (Option.some "light.svg") (Option.some "dark.svg"),
        iconUrl := Option.none }
      "n8n-nodes-foo" "/tmp/pkg/dist/Node.node.js" "/tmp/pkg"
      (Option.some "light.svg") (Option.some "dark.svg") rfl).1
    "dark.svg" rfl (by decide)

namespace NodeExtractor

/-- The four candidate path variations generated for a declared node
entry (src/unnamed/part_003 lines 176 to 181, and the same list in
src/src/extractors/node-extractor.ts lines 59 to 64): the literal path,
the first `.ts` occurrence replaced by `.js`, and the first `src/`
occurrence replaced by `dist/` resp. `lib/`. -/
def pathVariations (nodePath : String) : List String :=
  [nodePath,
   jsReplaceFirst ".ts" ".js" nodePath,
   jsReplaceFirst "src/" "dist/" nodePath,
   jsReplaceFirst "src/" "lib/" nodePath]

/-- The existence checks of MultipleNodeExtractor.findNodes: every
variation is resolved against the package path and probed; Promise.all
collects the results positionally, in the fixed declaration order of the
variations, whatever the completion order of the concurrent filesystem
checks. The filesystem is a fixed existence predicate over absolute
paths. -/
def checkVariations (fsExists : String → Bool) (packagePath nodePath : String) :
    List (Bool × String) :=
  (pathVariations nodePath).map
    (fun variation =>
      let fullPath := posixResolve packagePath variation
      (fsExists fullPath, fullPath))

/-- The selection `checkResults.find(result => result.exists)`: the
first candidate in declaration order that exists. -/
def findValidPath (fsExists : String → Bool) (packagePath nodePath : String) :
    Option String :=
  ((checkVariations fsExists packagePath nodePath).find? (fun r => r.1)).map
    (fun r => r.2)

/-- One declared entry of MultipleNodeExtractor.findNodes: when a valid
path is found, the description extracted there is the result (the
try/catch of extractCompleteNode turns any load, instantiation or
description exception into a null result, modelled by the Option-valued
`extractAt`); otherwise the entry is skipped with a warning and yields
null. -/
def processDeclaredNode {α : Type} (fsExists : String → Bool)
    (extractAt : String → Option α) (packagePath nodePath : String) : Option α :=
  match findValidPath fsExists packagePath nodePath with
  | Option.some fullPath => extractAt fullPath
  | Option.none => Option.none

/-- MultipleNodeExtractor.findNodes (src/unnamed/part_003 lines 163 to
223): every declared node is processed, Promise.all returns the results
in declaration order, and the null results are filtered out. -/
def findNodes {α : Type} (fsExists : String → Bool) (extractAt : String → Option α)
    (packagePath : String) (declaredNodes : List String) : List α :=
  ((declaredNodes.map (processDeclaredNode fsExists extractAt packagePath)).filterMap
    id)

theorem find_first_true {α : Type} (l : List (Bool × α)) :
    ∀ (i : Nat) (hi : i < l.length),
      (l.get ⟨i, hi⟩).1 = true →
      (∀ j (hj : j < i), (l.get ⟨j, Nat.lt_trans hj hi⟩).1 = false) →
      l.find? (fun r => r.1) = Option.some (l.get ⟨i, hi⟩) := by
  induction l with
  | nil => intro i hi; exact absurd hi (by simp)
  | cons x xs ih =>
    intro i hi hex hmin
    cases i with
    | zero =>
      simp only [List.get] at hex
      simp [List.find?, hex]
    | succ i2 =>
      have hx : x.1 = false := by
        have := hmin 0 (Nat.succ_pos i2)
        simpa using this
      have hi2 : i2 < xs.length := Nat.lt_of_succ_lt_succ hi
      have hex2 : (xs.get ⟨i2, hi2⟩).1 = true := by simpa using hex
      have hmin2 : ∀ j (hj : j < i2), (xs.get ⟨j, Nat.lt_trans hj hi2⟩).1 = false := by
        intro j hj
        have := hmin (j + 1) (Nat.succ_lt_succ hj)
        simpa using this
      have := ih i2 hi2 hex2 hmin2
      simp [List.find?, hx, this]

end NodeExtractor

/-- C5: candidate selection is order-deterministic. For every filesystem
existence predicate, package path and declared entry, if the candidate
at position i of the generated check list exists and every
earlier-listed candidate does not, then the selected path is exactly the
candidate at position i — the earliest-listed existing candidate,
independent of the completion order of the concurrent checks, which
Promise.all collects positionally. -/
theorem earliest_existing_candidate_selected (fsExists : String → Bool)
    (packagePath nodePath : String) (i : Nat)
    (hi : i < (checkVariations fsExists packagePath nodePath).length)
    (hex : ((checkVariations fsExists packagePath nodePath).get ⟨i, hi⟩).1 = true)
    (hmin : ∀ j (hj : j < i),
      ((checkVariations fsExists packagePath nodePath).get
        ⟨j, Nat.lt_trans hj hi⟩).1 = false) :
    findValidPath fsExists packagePath nodePath
      = Option.some
          (((checkVariations fsExists packagePath nodePath).get ⟨i, hi⟩).2) := by
  unfold findValidPath
  rw [find_first_true (checkVariations fsExists packagePath nodePath) i hi hex hmin]
  rfl

/-- Witness for the C5 theorem: the declared entry src/MyNode.node.ts in
a package where only the compiled src/MyNode.node.js exists; the second
candidate is selected because the first does not exist. -/
theorem earliest_existing_candidate_selected_witness :
    findValidPath (fun p => p == "/pkg/src/MyNode.node.js") "/pkg" "src/MyNode.node.ts"
      = Option.some "/pkg/src/MyNode.node.js" := by
  have hi : 1 < (checkVariations (fun p => p == "/pkg/src/MyNode.node.js")
      "/pkg" "src/MyNode.node.ts").length := by decide
  have hex : ((checkVariations (fun p => p == "/pkg/src/MyNode.node.js")
      "/pkg" "src/MyNode.node.ts").get ⟨1, by decide⟩).1 = true := by decide
  have h0 : ((checkVariations (fun p => p == "/pkg/src/MyNode.node.js")
      "/pkg" "src/MyNode.node.ts").get ⟨0, by decide⟩).1 = false := by decide
  have hmin : ∀ j (hj : j < 1),
      ((checkVariations (fun p => p == "/pkg/src/MyNode.node.js")
        "/pkg" "src/MyNode.node.ts").get ⟨j, Nat.lt_trans hj hi⟩).1 = false := by
    intro j hj
    have hj0 : j = 0 := by omega
    subst hj0
    exact h0
  have h := earliest_existing_candidate_selected
    (fun p => p == "/pkg/src/MyNode.node.js") "/pkg" "src/MyNode.node.ts" 1 hi hex hmin
  simpa using h

/-- C6: for the declared entry dist/MyNode.node.js, the `.ts` to `.js`
substitution and both directory substitutions leave the path unchanged,
so all four variations are the literal path; in a package where only
src/MyNode.node.ts exists on disk, no variation matches, no valid path
is found, and the entry yields null (it is skipped with a warning). -/
theorem declared_dist_entry_never_found {α : Type} (extractAt : String → Option α) :
    pathVariations "dist/MyNode.node.js"
      = ["dist/MyNode.node.js", "dist/MyNode.node.js",
         "dist/MyNode.node.js", "dist/MyNode.node.js"]
    ∧ findValidPath (fun p => p == "/pkg/src/MyNode.node.ts") "/pkg"
        "dist/MyNode.node.js" = Option.none
    ∧ processDeclaredNode (fun p => p == "/pkg/src/MyNode.node.ts") extractAt "/pkg"
        "dist/MyNode.node.js" = Option.none := by
  refine ⟨rfl, rfl, ?_⟩
  rfl

/-- Witness for the C6 theorem at a concrete extraction function. -/
theorem declared_dist_entry_never_found_witness :
    processDeclaredNode (fun p => p == "/pkg/src/MyNode.node.ts")
        (fun p => Option.some p) "/pkg" "dist/MyNode.node.js" = Option.none :=
  (declared_dist_entry_never_found (fun p => Option.some p)).2.2

namespace NodeExtractor

theorem filterMap_id_map_some {α : Type} (l : List α) :
    (l.map Option.some).filterMap id = l := by
  induction l with
  | nil => rfl
  | cons x xs ih => simp [ih]

end NodeExtractor

/-- C7: partial-failure tolerance preserves order. For every list of
five declared modules of which exactly one — at any position, written as
the split pre ++ failing :: post with four successes overall — yields a
null result (the try/catch around load, instantiation and describe turns
any exception into null for that module only), findNodes returns exactly
the four successful descriptions, in the declaration order of the
successful four; the batch is a total function of the per-module
outcomes and never aborts. -/
theorem one_failure_any_position_keeps_four_in_order {α : Type}
    (fsExists : String → Bool) (extractAt : String → Option α)
    (packagePath : String) (pre post : List String) (pfail : String)
    (dpre dpost : List α)
    (hfive : pre.length + post.length = 4)
    (hpre : pre.map (processDeclaredNode fsExists extractAt packagePath)
      = dpre.map Option.some)
    (hfail : processDeclaredNode fsExists extractAt packagePath pfail = Option.none)
    (hpost : post.map (processDeclaredNode fsExists extractAt packagePath)
      = dpost.map Option.some) :
    findNodes fsExists extractAt packagePath (pre ++ pfail :: post)
      = dpre ++ dpost
    ∧ (dpre ++ dpost).length = 4 := by
  constructor
  · simp only [findNodes, List.map_append, List.map_cons, List.filterMap_append,
      hpre, hfail, hpost]
    simp [filterMap_id_map_some]
  · have hl1 : pre.length = dpre.length := by
      have := congrArg List.length hpre
      simpa using this
    have hl2 : post.length = dpost.length := by
      have := congrArg List.length hpost
      simpa using this
    simp only [List.length_append]
    omega

/-- Witness for the C7 theorem: five declared entries, each resolving to
its literal path, where extraction throws (yields null) exactly for the
second; the other four descriptions survive in declaration order. -/
theorem one_failure_any_position_keeps_four_in_order_witness :
    findNodes (fun _ => true)
        (fun p => if p == "/pkg/b" then Option.none else Option.some p)
        "/pkg" (["a"] ++ "b" :: ["c", "d", "e"])
      = ["/pkg/a"] ++ ["/pkg/c", "/pkg/d", "/pkg/e"]
    ∧ ((["/pkg/a"] : List String) ++ ["/pkg/c", "/pkg/d", "/pkg/e"]).length = 4 :=
  one_failure_any_position_keeps_four_in_order (fun _ => true)
    (fun p => if p == "/pkg/b" then Option.none else Option.some p)
    "/pkg" ["a"] ["c", "d", "e"] "b" ["/pkg/a"] ["/pkg/c", "/pkg/d", "/pkg/e"]
    rfl rfl rfl rfl

namespace NodeExtractor

/-- JSON values, the image of JSON.stringify and the domain of
JSON.parse for the saved artifact; node descriptions inside the artifact
are arbitrary JSON values. -/
inductive JVal where
  | jnull
  | jstr (s : String)
  | jnum (n : Int)
  | jarr (xs : List JVal)
  | jobj (fields : List (String × JVal))

/-- The single-package ExtractionResult record written by
BaseExtractor.saveResults (src/unnamed/part_002 lines 159 to 170). -/
structure ExtractionResultS where
  extractedAt : String
  totalNodes : Nat
  format : String
  nodes : List JVal

/-- The data record built by BaseExtractor.saveResults: totalNodes is
the length of the extracted items list. -/
def mkSingleResult (extractedAt fmt : String) (extractedItems : List JVal) :
    ExtractionResultS :=
  { extractedAt := extractedAt, totalNodes := extractedItems.length,
    format := fmt, nodes := extractedItems }

/-- JSON.stringify of the single-package record, at the level of the
JSON value it denotes. -/
def serializeSingle (r : ExtractionResultS) : JVal :=
  JVal.jobj
    [("extractedAt", JVal.jstr r.extractedAt),
     ("totalNodes", JVal.jnum r.totalNodes),
     ("format", JVal.jstr r.format),
     ("nodes", JVal.jarr r.nodes)]

/-- JSON.parse of a single-package artifact back into the record. -/
def parseSingle : JVal → Option ExtractionResultS
  | JVal.jobj
      [("extractedAt", JVal.jstr ts),
       ("totalNodes", JVal.jnum n),
       ("format", JVal.jstr f),
       ("nodes", JVal.jarr xs)] =>
    match n with
    | Int.ofNat k =>
      Option.some { extractedAt := ts, totalNodes := k, format := f, nodes := xs }
    | _ => Option.none
  | _ => Option.none

/-- The multi-package artifact record written by
MultipleNodeExtractor.saveResults (src/unnamed/part_003 lines 262 to
274). The packages record is the insertion-ordered key-value map of
package name to its description list. -/
structure MultiResult where
  extractedAt : String
  totalPackages : Nat
  totalNodes : Nat
  format : String
  packages : List (String × List JVal)

/-- The data record built by MultipleNodeExtractor.saveResults:
totalPackages counts the keys and totalNodes is the reduce-sum of the
per-package list lengths. -/
def mkMultiResult (extractedAt : String) (packages : List (String × List JVal)) :
    MultiResult :=
  { extractedAt := extractedAt,
    totalPackages := packages.length,
    totalNodes := packages.foldl (fun sum p => sum + p.2.length) 0,
    format := "node-descriptions",
    packages := packages }

/-- JSON.stringify of the multi-package record. -/
def serializeMulti (r : MultiResult) : JVal :=
  JVal.jobj
    [("extractedAt", JVal.jstr r.extractedAt),
     ("totalPackages", JVal.jnum r.totalPackages),
     ("totalNodes", JVal.jnum r.totalNodes),
     ("format", JVal.jstr r.format),
     ("packages", JVal.jobj (r.packages.map (fun p => (p.1, JVal.jarr p.2))))]

/-- Read the per-package arrays back out of the packages object. -/
def unwrapPackages : List (String × JVal) → Option (List (String × List JVal))
  | [] => Option.some []
  | (k, JVal.jarr xs) :: rest => (unwrapPackages rest).map (fun t => (k, xs) :: t)
  | _ => Option.none

/-- JSON.parse of a multi-package artifact back into the record. -/
def parseMulti : JVal → Option MultiResult
  | JVal.jobj
      [("extractedAt", JVal.jstr ts),
       ("totalPackages", JVal.jnum tp),
       ("totalNodes", JVal.jnum tn),
       ("format", JVal.jstr f),
       ("packages", JVal.jobj fields)] =>
    match tp, tn, unwrapPackages fields with
    | Int.ofNat kp, Int.ofNat kn, Option.some pkgs =>
      Option.some
        { extractedAt := ts, totalPackages := kp, totalNodes := kn,
          format := f, packages := pkgs }
    | _, _, _ => Option.none
  | _ => Option.none

theorem unwrapPackages_map (l : List (String × List JVal)) :
    unwrapPackages (l.map (fun p => (p.1, JVal.jarr p.2))) = Option.some l := by
  induction l with
  | nil => rfl
  | cons x xs ih => simp [unwrapPackages, ih]

theorem foldl_add_lengths (l : List (String × List JVal)) :
    ∀ n : Nat, l.foldl (fun sum p => sum + p.2.length) n
      = n + (l.map (fun p => p.2.length)).sum := by
  induction l with
  | nil => intro n; simp [List.foldl]
  | cons x xs ih => intro n; simp [List.foldl, ih, Nat.add_assoc]

end NodeExtractor

/-- C8: round-trip consistency of the result artifact. Serializing the
record built by saveResults to JSON and parsing it back yields a record
whose totalNodes equals the length of the nodes list in single-package
mode and the sum of the per-package list lengths in multi-package mode. -/
theorem roundtrip_totalNodes (ts fmt : String) (items : List JVal)
    (ts2 : String) (pkgs : List (String × List JVal)) :
    (∃ r, parseSingle (serializeSingle (mkSingleResult ts fmt items))
        = Option.some r ∧ r.totalNodes = r.nodes.length)
    ∧ (∃ m, parseMulti (serializeMulti (mkMultiResult ts2 pkgs))
        = Option.some m
        ∧ m.totalNodes = (m.packages.map (fun p => p.2.length)).sum) := by
  constructor
  · exact ⟨mkSingleResult ts fmt items, rfl, rfl⟩
  · refine ⟨mkMultiResult ts2 pkgs, ?_, ?_⟩
    · simp [parseMulti, serializeMulti, mkMultiResult, unwrapPackages_map]
    · simp [mkMultiResult, foldl_add_lengths]

namespace NodeExtractor

/-- A settled JS promise: resolved with a value or rejected with an
error (modelled as its message string). -/
inductive Settled (α : Type) where
  | resolved (a : α)
  | rejected (e : String)
deriving DecidableEq

/-- The timeout error message built in loadNodeModule. -/
def timeoutMessage (filePath : String) : String :=
  "Module load timeout: " ++ filePath

/-- The default value of the timeoutMs parameter of loadNodeModule
(src/unnamed/part_002 line 440). -/
def defaultTimeoutMs : Nat := 10000

/-- A JS timer as left behind by the executor: its due time on the
clock, and whether clearTimeout was called on it. -/
structure JsTimer where
  dueAt : Nat
  cleared : Bool

/-- The synchronous executor body of loadNodeModule (src/unnamed/
part_002 lines 441 to 456): setTimeout schedules the timeout rejection
for timeoutMs from now, then require.resolve, the cache eviction and
require run synchronously, blocking the event loop for loadDuration
milliseconds; on either outcome clearTimeout runs before the executor
returns and the promise is settled. Returns the settlement made by the
executor, the timer state at return, and the clock at return. -/
def loadExecutor {α : Type} (timeoutMs loadDuration : Nat)
    (requireResult : Except String α) : Settled α × JsTimer × Nat :=
  let timer : JsTimer := { dueAt := timeoutMs, cleared := false }
  match requireResult with
  | Except.ok m => (Settled.resolved m, { timer with cleared := true }, loadDuration)
  | Except.error e => (Settled.rejected e, { timer with cleared := true }, loadDuration)

/-- Full event-loop model of loadNodeModule. JS run-to-completion: the
executor runs synchronously before any timer callback can run, so the
settlement attempts, in chronological order, are the one made by the
executor followed by the timer rejection in case the timer is still
armed and due once the event loop turns. A promise keeps its first
settlement. -/
def loadNodeModule {α : Type} (filePath : String) (timeoutMs loadDuration : Nat)
    (requireResult : Except String α) : Settled α :=
  let r := loadExecutor timeoutMs loadDuration requireResult
  let settledByExecutor := r.1
  let timer := r.2.1
  let clock := r.2.2
  let attempts :=
    [settledByExecutor]
      ++ (if !timer.cleared && decide (timer.dueAt ≤ clock)
          then [Settled.rejected (timeoutMessage filePath)] else [])
  (attempts.head?).getD settledByExecutor

end NodeExtractor

/-- C9: the module-load timeout can never fire. The executor body is
synchronous, so clearTimeout always runs before the event loop can run
the timer callback; a load whose synchronous require exceeds the default
10000 ms bound still resolves with the loaded module afterwards, and
loadNodeModule never rejects with the module-load-timeout error. This
contradicts the claimed (and commented) timeout behavior of the code. -/
theorem load_timeout_never_fires {α : Type} (filePath : String)
    (loadDuration : Nat) (m : α)
    (hslow : loadDuration > defaultTimeoutMs) :
    loadNodeModule filePath defaultTimeoutMs loadDuration (Except.ok m)
        = Settled.resolved m
      ∧ loadNodeModule filePath defaultTimeoutMs loadDuration (Except.ok m)
        ≠ Settled.rejected (timeoutMessage filePath)
      ∧ defaultTimeoutMs = 10000 := by
  refine ⟨rfl, ?_, rfl⟩
  intro h
  exact Settled.noConfusion (h.symm.trans (rfl : loadNodeModule filePath
    defaultTimeoutMs loadDuration (Except.ok m) = Settled.resolved m))

/-- Witness for the C9 theorem: a module whose synchronous load blocks
for 20000 ms, twice the default bound, still resolves. -/
theorem load_timeout_never_fires_witness :
    loadNodeModule "/pkg/dist/Slow.node.js" defaultTimeoutMs 20000
        (Except.ok (0 : Nat))
      = Settled.resolved 0
    ∧ loadNodeModule "/pkg/dist/Slow.node.js" defaultTimeoutMs 20000
        (Except.ok (0 : Nat))
      ≠ Settled.rejected (timeoutMessage "/pkg/dist/Slow.node.js")
    ∧ defaultTimeoutMs = 10000 :=
  load_timeout_never_fires "/pkg/dist/Slow.node.js" 20000 (0 : Nat) (by decide)

namespace NodeExtractor

/-- Promise.all over already-determined per-promise outcomes: it
fulfills with the positionally ordered list of values when every promise
fulfills, and rejects when any promise rejects (the model
deterministically surfaces the first rejection in list order). -/
def promiseAll {ε α : Type} : List (Except ε α) → Except ε (List α)
  | [] => Except.ok []
  | Except.ok a :: rest => (promiseAll rest).map (fun t => a :: t)
  | Except.error e :: rest => Except.error e

/-- MultipleNodeExtractor.extractInternal fan-out (src/unnamed/part_003
lines 132 to 157): one extraction promise per requested package, each
running findNodes for its package and recording the result under the
package name; the batch awaits Promise.all, so the assembled keyed
result is only produced when every per-package promise fulfills, and
the whole extraction rejects otherwise. -/
def extractInternalMulti {δ : Type} (findNodesResult : String → Except String (List δ))
    (packageNames : List String) : Except String (List (String × List δ)) :=
  promiseAll
    (packageNames.map
      (fun packageName =>
        (findNodesResult packageName).map (fun nodes => (packageName, nodes))))

end NodeExtractor

/-- C10: per-package failures are not isolated in the multi-package
extractor. If the findNodes step of any requested package rejects, the
shared Promise.all rejects, the whole multi-package extraction rejects,
and no keyed result map is produced for any sibling package. -/
theorem multi_package_failure_not_isolated {δ : Type}
    (findNodesResult : String → Except String (List δ))
    (packageNames : List String) (pn : String) (e : String)
    (hmem : pn ∈ packageNames)
    (herr : findNodesResult pn = Except.error e) :
    (∃ e2, extractInternalMulti findNodesResult packageNames = Except.error e2)
      ∧ ∀ results, extractInternalMulti findNodesResult packageNames
          ≠ Except.ok results := by
  have key : ∃ e2, extractInternalMulti findNodesResult packageNames
      = Except.error e2 := by
    induction packageNames with
    | nil => exact absurd hmem (by simp)
    | cons q qs ih =>
      rcases List.mem_cons.mp hmem with hq | hq
      · subst hq
        exact ⟨e, by simp [extractInternalMulti, promiseAll, herr]⟩
      · cases hfq : findNodesResult q with
        | error e3 =>
          exact ⟨e3, by simp [extractInternalMulti, promiseAll, hfq]⟩
        | ok nodes =>
          rcases ih hq with ⟨e2, he2⟩
          refine ⟨e2, ?_⟩
          simp only [extractInternalMulti, List.map_cons, hfq, Except.map,
            promiseAll] at he2 ⊢
          simp [he2]
  refine ⟨key, ?_⟩
  intro results hok
  rcases key with ⟨e2, he2⟩
  rw [hok] at he2
  exact Except.noConfusion he2

/-- Witness for the C10 theorem: two packages requested together where
the findNodes step of the second rejects; the whole extraction rejects
and no keyed map is produced. -/
theorem multi_package_failure_not_isolated_witness :
    (∃ e2, extractInternalMulti
        (fun pn => if pn == "pkg-b" then Except.error "ENOENT"
          else Except.ok (["node"] : List String))
        ["pkg-a", "pkg-b"] = Except.error e2)
      ∧ ∀ results, extractInternalMulti
          (fun pn => if pn == "pkg-b" then Except.error "ENOENT"
            else Except.ok (["node"] : List String))
          ["pkg-a", "pkg-b"] ≠ Except.ok results :=
  multi_package_failure_not_isolated
    (fun pn => if pn == "pkg-b" then Except.error "ENOENT"
      else Except.ok (["node"] : List String))
    ["pkg-a", "pkg-b"] "pkg-b" "ENOENT" (by decide) rfl
